import Mathlib

/-!
# Coinflip game backend — verification of the provably-fair engine and room state machine

Shallow embedding of the `coinflip-game-backend` TypeScript sources:

* `ProvablyFairService` (`generateServerSeed` / `generateClientSeed` /
  `hashServerSeed` / `generateResult` / `verifyResult` / `createVerificationData`),
* `GameService` (`createRoom` / `joinRoom` / `resetRoomForReplay` / `flipCoin` /
  `isRoomReadyForReplay` / `removePlayer`).

Node's `crypto.createHash('sha256')` is an external library primitive; it is
embedded here as a full executable SHA-256 (FIPS 180-4) over UTF-8 bytes so
that digests can be evaluated inside proofs.  The Supabase persistence
collaborator is embedded as explicit lists of rows (`rooms`, `players`,
`games`): multi-`eq` selects become list filters, `.single()` succeeds exactly
when the filter matches exactly one row (PostgREST semantics), and deleting a
room cascades to its players and games as declared by the SQL schema shipped
in the repository (`room_id UUID REFERENCES rooms(id) ON DELETE CASCADE`).

Randomness (seed generation, room-code generation, row ids) and the
possibility of a rejected write are made explicit: random strings are
parameters of the operations, row ids are drawn from a fresh-id counter in the
database state, and the three inserts whose errors the service inspects carry
a success flag.  Timestamp columns are omitted: no modelled behaviour reads
them.
-/

set_option maxRecDepth 40000

namespace Coinflip

/-! ## SHA-256 (executable embedding of `crypto.createHash('sha256')`) -/

/-- Truncate to a 32-bit word, `2 ^ 32 = 4294967296`. -/
def w32 (n : Nat) : Nat := n % 4294967296

/-- Rotate a 32-bit word right by `k` bits. -/
def rotr (k n : Nat) : Nat := w32 ((n >>> k) ||| (n <<< (32 - k)))

def bigSigma0 (x : Nat) : Nat := (rotr 2 x) ^^^ (rotr 13 x) ^^^ (rotr 22 x)

def bigSigma1 (x : Nat) : Nat := (rotr 6 x) ^^^ (rotr 11 x) ^^^ (rotr 25 x)

def smallSigma0 (x : Nat) : Nat := (rotr 7 x) ^^^ (rotr 18 x) ^^^ (x >>> 3)

def smallSigma1 (x : Nat) : Nat := (rotr 17 x) ^^^ (rotr 19 x) ^^^ (x >>> 10)

/-- The 64 SHA-256 round constants `K[0] = 0x428a2f98, …` of FIPS 180-4,
written in decimal; the test-vector examples below pin them down. -/
def sha256K : List Nat :=
  [1116352408, 1899447441, 3049323471, 3921009573, 961987163, 1508970993,
   2453635748, 2870763221, 3624381080, 310598401, 607225278, 1426881987,
   1925078388, 2162078206, 2614888103, 3248222580, 3835390401, 4022224774,
   264347078, 604807628, 770255983, 1249150122, 1555081692, 1996064986,
   2554220882, 2821834349, 2952996808, 3210313671, 3336571891, 3584528711,
   113926993, 338241895, 666307205, 773529912, 1294757372, 1396182291,
   1695183700, 1986661051, 2177026350, 2456956037, 2730485921, 2820302411,
   3259730800, 3345764771, 3516065817, 3600352804, 4094571909, 275423344,
   430227734, 506948616, 659060556, 883997877, 958139571, 1322822218,
   1537002063, 1747873779, 1955562222, 2024104815, 2227730452, 2361852424,
   2428436474, 2756734187, 3204031479, 3329325298]

/-- The SHA-256 initial hash value `H[0] = 0x6a09e667, …`, in decimal. -/
def sha256H0 : List Nat :=
  [1779033703, 3144134277, 1013904242, 2773480762,
   1359893119, 2600822924, 528734635, 1541459225]

/-- Extend a 16-word block by `k` further message-schedule words. -/
def sha256Extend : Nat → List Nat → List Nat
  | 0, w => w
  | k + 1, w =>
    let i := w.length
    let nw := w32 ((w.getD (i - 16) 0) + smallSigma0 (w.getD (i - 15) 0) +
                   (w.getD (i - 7) 0) + smallSigma1 (w.getD (i - 2) 0))
    sha256Extend k (w ++ [nw])

/-- The eight working variables of the SHA-256 compression loop. -/
structure Sha256State where
  a : Nat
  b : Nat
  c : Nat
  d : Nat
  e : Nat
  f : Nat
  g : Nat
  h : Nat

/-- One SHA-256 round; `kw` pairs the round constant with the schedule word. -/
def sha256Round (st : Sha256State) (kw : Nat × Nat) : Sha256State :=
  let ch := (st.e &&& st.f) ^^^ ((st.e ^^^ 4294967295) &&& st.g)
  let maj := (st.a &&& st.b) ^^^ (st.a &&& st.c) ^^^ (st.b &&& st.c)
  let t1 := w32 (st.h + bigSigma1 st.e + ch + kw.1 + kw.2)
  let t2 := w32 (bigSigma0 st.a + maj)
  ⟨w32 (t1 + t2), st.a, st.b, st.c, w32 (st.d + t1), st.e, st.f, st.g⟩

/-- Compress one 16-word block into the running 8-word hash value. -/
def sha256Compress (h : List Nat) (block : List Nat) : List Nat :=
  let w := sha256Extend 48 block
  let st0 : Sha256State :=
    ⟨h.getD 0 0, h.getD 1 0, h.getD 2 0, h.getD 3 0, h.getD 4 0, h.getD 5 0, h.getD 6 0, h.getD 7 0⟩
  let st := (sha256K.zip w).foldl sha256Round st0
  [w32 (h.getD 0 0 + st.a), w32 (h.getD 1 0 + st.b), w32 (h.getD 2 0 + st.c),
   w32 (h.getD 3 0 + st.d), w32 (h.getD 4 0 + st.e), w32 (h.getD 5 0 + st.f),
   w32 (h.getD 6 0 + st.g), w32 (h.getD 7 0 + st.h)]

/-- Group a byte list into big-endian 32-bit words. -/
def toWords32 : List Nat → List Nat
  | b0 :: b1 :: b2 :: b3 :: rest => (b0 * 16777216 + b1 * 65536 + b2 * 256 + b3) :: toWords32 rest
  | _ => []

/-- The `k` big-endian bytes of `n`. -/
def beBytes : Nat → Nat → List Nat
  | 0, _ => []
  | k + 1, n => ((n >>> (8 * k)) % 256) :: beBytes k n

/-- SHA-256 padding: a `0x80` byte, zeros to 56 mod 64, then the bit length. -/
def sha256Pad (msg : List Nat) : List Nat :=
  msg ++ (128 :: List.replicate ((119 - msg.length % 64) % 64) 0) ++ beBytes 8 (8 * msg.length)

/-- Fold the compression function over `k` consecutive 64-byte blocks. -/
def sha256Loop : Nat → List Nat → List Nat → List Nat
  | 0, h, _ => h
  | k + 1, h, bytes => sha256Loop k (sha256Compress h (toWords32 (bytes.take 64))) (bytes.drop 64)

/-- SHA-256 of a byte list, as eight 32-bit words. -/
def sha256Words (msg : List Nat) : List Nat :=
  let p := sha256Pad msg
  sha256Loop (p.length / 64) sha256H0 p

/-- Lowercase hex digit, as produced by Node's `.digest('hex')`. -/
def hexDigit (n : Nat) : Char :=
  match n with
  | 0 => '0' | 1 => '1' | 2 => '2' | 3 => '3' | 4 => '4' | 5 => '5' | 6 => '6' | 7 => '7'
  | 8 => '8' | 9 => '9' | 10 => 'a' | 11 => 'b' | 12 => 'c' | 13 => 'd' | 14 => 'e' | _ => 'f'

/-- The eight hex characters of a 32-bit word, most significant first. -/
def wordHex (n : Nat) : List Char :=
  [hexDigit ((n >>> 28) % 16), hexDigit ((n >>> 24) % 16), hexDigit ((n >>> 20) % 16),
   hexDigit ((n >>> 16) % 16), hexDigit ((n >>> 12) % 16), hexDigit ((n >>> 8) % 16),
   hexDigit ((n >>> 4) % 16), hexDigit (n % 16)]

/-- UTF-8 encoding of one character (Node hashes strings as UTF-8 bytes). -/
def utf8Char (c : Char) : List Nat :=
  let n := c.toNat
  if n < 128 then [n]
  else if n < 2048 then [192 + n / 64, 128 + n % 64]
  else if n < 65536 then [224 + n / 4096, 128 + (n / 64) % 64, 128 + n % 64]
  else [240 + n / 262144, 128 + (n / 4096) % 64, 128 + (n / 64) % 64, 128 + n % 64]

/-- UTF-8 bytes of a string. -/
def utf8Bytes (s : String) : List Nat := (s.data.map utf8Char).flatten

/-- `createHash('sha256').update(s).digest('hex')`: lowercase 64-hex-char digest. -/
def sha256Hex (s : String) : String := ⟨((sha256Words (utf8Bytes s)).map wordHex).flatten⟩

-- FIPS 180-4 test vectors, checked against `sha256sum`.
example : sha256Hex "abc" = "ba7816bf8f01cfea414140de5dae2223b00361a396177a9cb410ff61f20015ad" := by
  decide

example : sha256Hex "" = "e3b0c44298fc1c149afbf4c8996fb92427ae41e4649b934ca495991b7852b855" := by
  decide

/-! ## `ProvablyFairService` -/

/-- `'heads' | 'tails'` (`CoinSide` in `game.types.ts`). -/
inductive CoinSide where
  | heads
  | tails
deriving DecidableEq, Repr

/-- The strict opposite side; `joinRoom` computes it with a conditional. -/
def oppositeSide : CoinSide → CoinSide
  | .heads => .tails
  | .tails => .heads

/-- Value of one hex digit, upper or lower case (as accepted by
`parseInt(_, 16)`), computed from the character's code point. -/
def hexVal (c : Char) : Option Nat :=
  let n := c.toNat
  if 48 ≤ n ∧ n ≤ 57 then some (n - 48)
  else if 97 ≤ n ∧ n ≤ 102 then some (n - 87)
  else if 65 ≤ n ∧ n ≤ 70 then some (n - 55)
  else none

/-- Accumulate the maximal run of leading hex digits. -/
def parseIntHexAux : List Char → Nat → Nat
  | [], acc => acc
  | c :: cs, acc =>
    match hexVal c with
    | some v => parseIntHexAux cs (acc * 16 + v)
    | none => acc

/-- JavaScript `parseInt(s, 16)`: parses the maximal prefix of hex digits and
returns `none` for `NaN` (no leading hex digit).  Leading whitespace, sign and
`0x` handling are omitted: `generateResult` only applies this to a slice of a
lowercase hex digest. -/
def parseIntHex (s : String) : Option Nat :=
  match s.data with
  | [] => none
  | c :: cs =>
    match hexVal c with
    | some v => some (parseIntHexAux cs v)
    | none => none

/-- `hash.substring(0, n)`: for the ASCII hex digests this is applied to,
JavaScript UTF-16 code-unit slicing is plain character slicing. -/
def strTake (n : Nat) (s : String) : String := ⟨s.data.take n⟩

/-- `ProvablyFairResult` interface. -/
structure ProvablyFairResult where
  result : CoinSide
  serverSeed : String
  clientSeed : String
  nonce : Nat
  hash : String
  isVerifiable : Bool
deriving DecidableEq, Repr

/-- `ProvablyFairService.generateResult`.  The nonce is a JavaScript integer
interpolated in decimal (`Nat.repr`).  `parseInt` of the digest slice cannot
be `NaN`; if it were, `NaN % 2 === 0` is `false` in JavaScript, so the `none`
branch yields `tails`. -/
def generateResult (serverSeed clientSeed : String) (nonce : Nat) : ProvablyFairResult :=
  let combinedInput := serverSeed ++ ":" ++ clientSeed ++ ":" ++ Nat.repr nonce
  let hash := sha256Hex combinedInput
  let result :=
    match parseIntHex (strTake 8 hash) with
    | some v => if v % 2 = 0 then CoinSide.heads else CoinSide.tails
    | none => CoinSide.tails
  { result := result, serverSeed := serverSeed, clientSeed := clientSeed,
    nonce := nonce, hash := hash, isVerifiable := true }

/-- `ProvablyFairService.verifyResult`: recompute and compare hash and result.
The `try`/`catch` wrapping a total computation is modelled by totality. -/
def verifyResult (serverSeed clientSeed : String) (nonce : Nat)
    (expectedHash : String) (expectedResult : CoinSide) : Bool :=
  let r := generateResult serverSeed clientSeed nonce
  r.hash == expectedHash && r.result == expectedResult

/-- `ProvablyFairService.hashServerSeed`. -/
def hashServerSeed (serverSeed : String) : String := sha256Hex serverSeed

/-- Payload of `ProvablyFairService.createVerificationData`. -/
structure VerificationData where
  serverSeed : String
  clientSeed : String
  nonce : Nat
  verificationUrl : String
deriving DecidableEq, Repr

/-- `ProvablyFairService.createVerificationData` (the constant instruction
strings are omitted). -/
def createVerificationData (serverSeed clientSeed : String) (nonce : Nat) : VerificationData :=
  { serverSeed := serverSeed, clientSeed := clientSeed, nonce := nonce,
    verificationUrl := "https://tools.pnxbet.com/fair/coinflip?server=" ++ serverSeed ++
      "&client=" ++ clientSeed ++ "&nonce=" ++ Nat.repr nonce }

-- `sha256("a:b:1") = 6cce7cb7…`, leading 32 bits odd, so the flip is tails.
example :
    generateResult "a" "b" 1 =
      { result := .tails, serverSeed := "a", clientSeed := "b", nonce := 1,
        hash := "6cce7cb783ec0ac78f072eeed1c71edc1dc62959a913c7b19e533f6be2cbe9ed",
        isVerifiable := true } := by
  decide

/-! ## Data model (`game.types.ts` and the SQL schema)

Row ids are natural numbers drawn from a fresh-id counter (standing in for
generated UUIDs); monetary columns hold whole dollars (`10.00`/`20.00` are the
only values the service ever writes); timestamp columns are omitted.  Player
lists keep insertion order, which is the `joined_at` ascending order the
service relies on. -/

/-- `'waiting' | 'playing' | 'full' | 'completed'` (`RoomStatus`). -/
inductive RoomStatus where
  | waiting
  | full
  | playing
  | completed
deriving DecidableEq, Repr

structure Room where
  id : Nat
  code : String
  creator_side : CoinSide
  stake_amount : Nat
  total_pot : Nat
  status : RoomStatus
  server_seed : String
  client_seed : Option String
  nonce : Nat
deriving DecidableEq, Repr

structure Player where
  id : Nat
  room_id : Nat
  socket_id : String
  name : String
  side : CoinSide
  is_creator : Bool
  stake_amount : Nat
  has_paid : Bool
deriving DecidableEq, Repr

structure Game where
  id : Nat
  room_id : Nat
  flip_result : CoinSide
  winner_side : CoinSide
  winner_player_id : Nat
  total_pot : Nat
  server_seed : String
  client_seed : String
  nonce : Nat
  hash_result : String
  is_verified : Bool
deriving DecidableEq, Repr

/-- The persistent store: the three tables plus the fresh-id counter. -/
structure DB where
  rooms : List Room
  players : List Player
  games : List Game
  nextId : Nat
deriving DecidableEq, Repr

/-- `GameService.FIXED_STAKE` ($10 per player). -/
def FIXED_STAKE : Nat := 10

/-- `GameService.TOTAL_POT` ($20 for 1v1 games). -/
def TOTAL_POT : Nat := 20

/-- PostgREST `.single()`: succeeds exactly when the filtered selection holds
one row. -/
def selectSingle {α : Type} (rows : List α) : Option α :=
  match rows with
  | [r] => some r
  | _ => none

/-- `players` rows of one room (`.eq('room_id', roomId)`), in join order. -/
def playersOf (db : DB) (roomId : Nat) : List Player :=
  db.players.filter (fun p => p.room_id == roomId)

/-- `rooms` update by id: applies the payload to every row with that id. -/
def updateRooms (db : DB) (roomId : Nat) (f : Room → Room) : DB :=
  { db with rooms := db.rooms.map (fun r => if r.id == roomId then f r else r) }

/-- Deleting a `rooms` row; the SQL schema cascades the delete to the room's
`players` and `games` rows (`ON DELETE CASCADE`). -/
def deleteRoomCascade (db : DB) (roomId : Nat) : DB :=
  { db with rooms := db.rooms.filter (fun r => !(r.id == roomId)),
            players := db.players.filter (fun p => !(p.room_id == roomId)),
            games := db.games.filter (fun g => !(g.room_id == roomId)) }

/-- The errors the service can throw, one constructor per `throw` site. -/
inductive GameErr where
  | roomCreationExhausted
  | roomInsertFailed
  | playerInsertFailed
  | roomNotFoundOrNotAvailable
  | roomFull
  | invalidGameState
  | joinInsertFailed
  | joinUpdateFailed
  | roomNotReady
  | missingClientSeed
  | invalidPlayerCount
  | noWinnerDetermined
  | gameInsertFailed
deriving DecidableEq, Repr

/-! ## `GameService` -/

/-- `` playerName || `Player ${socketId.substring(0, 4)}` `` (an empty string
is falsy in JavaScript, so it also falls back to the default). -/
def defaultName (playerName : Option String) (socketId : String) : String :=
  match playerName with
  | some n => if n == "" then "Player " ++ strTake 4 socketId else n
  | none => "Player " ++ strTake 4 socketId

/-- The code-collision loop of `createRoom`: try candidates in order, keep the
first one for which the `.single()` code lookup finds no row (`codeExists`
is `!!data`).  The caller passes the first ten draws of `generateRoomCode`. -/
def pickFreshCode (db : DB) : List String → Option String
  | [] => none
  | c :: rest =>
    if (selectSingle (db.rooms.filter (fun r => r.code == c))).isSome then pickFreshCode db rest
    else some c

/-- Nondeterministic inputs of `createRoom`: the stream of room-code draws,
the generated server seed, and whether the store accepts each insert. -/
structure CreateRoomEnv where
  codes : Nat → String
  serverSeed : String
  roomInsertOk : Bool
  playerInsertOk : Bool

/-- `GameService.createRoom`.  Ten code-generation attempts
(`maxAttempts = 10`); on a rejected player insert the freshly created room is
rolled back (`delete().eq('id', room.id)`). -/
def createRoom (side : CoinSide) (playerName : Option String) (socketId : String)
    (env : CreateRoomEnv) (db : DB) : DB × Except GameErr Room :=
  match pickFreshCode db ((List.range 10).map env.codes) with
  | none => (db, .error .roomCreationExhausted)
  | some code =>
    if env.roomInsertOk then
      let room : Room :=
        { id := db.nextId, code := code, creator_side := side, stake_amount := FIXED_STAKE,
          total_pot := TOTAL_POT, status := .waiting, server_seed := env.serverSeed,
          client_seed := none, nonce := 0 }
      let db1 : DB := { db with rooms := db.rooms ++ [room], nextId := db.nextId + 1 }
      if env.playerInsertOk then
        let creator : Player :=
          { id := db1.nextId, room_id := room.id, socket_id := socketId,
            name := defaultName playerName socketId, side := side, is_creator := true,
            stake_amount := FIXED_STAKE, has_paid := true }
        ({ db1 with players := db1.players ++ [creator], nextId := db1.nextId + 1 }, .ok room)
      else
        (deleteRoomCascade db1 room.id, .error .playerInsertFailed)
    else (db, .error .roomInsertFailed)

/-- `GameService.joinRoom`.  `clientSeed` is the draw of
`generateClientSeed()`; `playerInsertOk`/`updateOk` model the store's answers
to the two checked writes. -/
def joinRoom (code : String) (playerName : Option String) (socketId : String)
    (clientSeed : String) (playerInsertOk updateOk : Bool) (db : DB) :
    DB × Except GameErr (Room × Player) :=
  match selectSingle (db.rooms.filter
      (fun r => r.code == code && r.status == RoomStatus.waiting)) with
  | none => (db, .error .roomNotFoundOrNotAvailable)
  | some room =>
    if (playersOf db room.id).length ≥ 2 then (db, .error .roomFull)
    else
      let playerSide := if room.creator_side == CoinSide.heads then CoinSide.tails else CoinSide.heads
      if playerSide == room.creator_side then (db, .error .invalidGameState)
      else if playerInsertOk then
        let player : Player :=
          { id := db.nextId, room_id := room.id, socket_id := socketId,
            name := defaultName playerName socketId, side := playerSide, is_creator := false,
            stake_amount := FIXED_STAKE, has_paid := true }
        let db1 : DB := { db with players := db.players ++ [player], nextId := db.nextId + 1 }
        if updateOk then
          (updateRooms db1 room.id (fun r => { r with status := .full, client_seed := some clientSeed }),
           .ok ({ room with status := .full, client_seed := some clientSeed }, player))
        else (db1, .error .joinUpdateFailed)
      else (db, .error .joinInsertFailed)

/-- `GameService.resetRoomForReplay`: set the room's status back to `full`,
leaving seeds and nonce untouched.  The update-by-id is applied to the row
just selected, so the storage-error branch does not arise in the model. -/
def resetRoomForReplay (roomId : Nat) (db : DB) : DB :=
  updateRooms db roomId (fun r => { r with status := .full })

/-- Return value of `flipCoin`. -/
structure FlipOutcome where
  result : CoinSide
  winner : CoinSide
  game : Game
  verification : VerificationData
  winnerPlayer : Player
deriving DecidableEq, Repr

/-- The body of `GameService.flipCoin` from the client-seed check onward:
`room` is the (possibly replay-reset and refetched) row, `roomId` the service
argument.  `gameInsertOk` models the store's answer to the games insert. -/
def flipResolve (roomId : Nat) (room : Room) (gameInsertOk : Bool) (db : DB) :
    DB × Except GameErr FlipOutcome :=
  match room.client_seed with
  | none => (db, .error .missingClientSeed)
  | some clientSeed =>
    let newNonce := room.nonce + 1
    let fairResult := generateResult room.server_seed clientSeed newNonce
    let players := playersOf db roomId
    if players.length ≠ 2 then (db, .error .invalidPlayerCount)
    else
      match players.find? (fun p => p.side == fairResult.result) with
      | none => (db, .error .noWinnerDetermined)
      | some winnerPlayer =>
        if gameInsertOk then
          let game : Game :=
            { id := db.nextId, room_id := roomId, flip_result := fairResult.result,
              winner_side := fairResult.result, winner_player_id := winnerPlayer.id,
              total_pot := room.total_pot, server_seed := room.server_seed,
              client_seed := clientSeed, nonce := newNonce, hash_result := fairResult.hash,
              is_verified := true }
          let db1 : DB := { db with games := db.games ++ [game], nextId := db.nextId + 1 }
          (updateRooms db1 roomId (fun r => { r with status := .completed, nonce := newNonce }),
           .ok { result := fairResult.result, winner := fairResult.result, game := game,
                 verification := createVerificationData room.server_seed clientSeed newNonce,
                 winnerPlayer := winnerPlayer })
        else (db, .error .gameInsertFailed)

/-- `GameService.flipCoin`: select the room with
`.eq('id', roomId).in('status', ['full', 'completed'])`; on the replay path
reset it to `full` and refetch (`Object.assign` keeps the old row if the
refetch returns nothing), then resolve. -/
def flipCoin (roomId : Nat) (gameInsertOk : Bool) (db : DB) :
    DB × Except GameErr FlipOutcome :=
  match selectSingle (db.rooms.filter (fun r => r.id == roomId &&
      (r.status == RoomStatus.full || r.status == RoomStatus.completed))) with
  | none => (db, .error .roomNotReady)
  | some room =>
    if room.status == RoomStatus.completed then
      let db1 := resetRoomForReplay roomId db
      let room1 :=
        match selectSingle (db1.rooms.filter (fun r => r.id == roomId)) with
        | some updatedRoom => updatedRoom
        | none => room
      flipResolve roomId room1 gameInsertOk db1
    else flipResolve roomId room gameInsertOk db

/-- `GameService.removePlayer`: look up the player by socket id
(`.single()`, so only an unambiguous match proceeds), delete it, and if it
was the creator delete the whole room (cascading to its rows). -/
def removePlayer (socketId : String) (db : DB) : DB :=
  match selectSingle (db.players.filter (fun p => p.socket_id == socketId)) with
  | none => db
  | some player =>
    let db1 : DB := { db with players := db.players.filter (fun p => !(p.socket_id == socketId)) }
    if player.is_creator then deleteRoomCascade db1 player.room_id else db1

/-! ## Digest shape lemmas

`generateResult` parses the first 8 characters of its digest with
`parseInt(_, 16)`; these lemmas show the parse always yields an unsigned
32-bit value, because the digest is a nonempty lowercase hex string whose
first eight characters render one 32-bit word. -/

theorem hexVal_le_15 {c : Char} {v : Nat} (h : hexVal c = some v) : v ≤ 15 := by
  simp only [hexVal] at h
  repeat' split at h
  all_goals try injection h with h2
  all_goals first
    | omega
    | exact absurd h (by simp)

theorem hexVal_hexDigit {m : Nat} (h : m < 16) : hexVal (hexDigit m) = some m := by
  interval_cases m <;> decide

theorem parseIntHexAux_lt (cs : List Char) : ∀ acc, parseIntHexAux cs acc < (acc + 1) * 16 ^ cs.length := by
  induction cs with
  | nil =>
    intro acc
    simp [parseIntHexAux]
  | cons c cs ih =>
    intro acc
    have hpow : 1 ≤ 16 ^ cs.length := Nat.one_le_pow _ _ (by norm_num)
    simp only [parseIntHexAux]
    cases hv : hexVal c with
    | none =>
      have : (acc + 1) * 1 ≤ (acc + 1) * (16 ^ (cs.length + 1)) :=
        Nat.mul_le_mul_left _ (Nat.one_le_pow _ _ (by norm_num))
      simpa using Nat.lt_of_lt_of_le (Nat.lt_succ_self acc) (by simpa using this)
    | some v =>
      have hb : v ≤ 15 := hexVal_le_15 hv
      have h1 := ih (acc * 16 + v)
      have h2 : (acc * 16 + v + 1) * 16 ^ cs.length ≤ (acc + 1) * 16 ^ (cs.length + 1) := by
        have : acc * 16 + v + 1 ≤ (acc + 1) * 16 := by omega
        calc (acc * 16 + v + 1) * 16 ^ cs.length ≤ ((acc + 1) * 16) * 16 ^ cs.length :=
              Nat.mul_le_mul_right _ this
          _ = (acc + 1) * 16 ^ (cs.length + 1) := by ring
      exact Nat.lt_of_lt_of_le h1 h2

theorem wordHex_length (w : Nat) : (wordHex w).length = 8 := rfl

theorem parseIntHex_wordHex (w : Nat) :
    ∃ v, parseIntHex ⟨wordHex w⟩ = some v ∧ v < 4294967296 := by
  have h28 : (w >>> 28) % 16 < 16 := Nat.mod_lt _ (by norm_num)
  refine ⟨parseIntHexAux ((wordHex w).drop 1) ((w >>> 28) % 16), ?_, ?_⟩
  · simp only [parseIntHex, wordHex, hexVal_hexDigit h28, List.drop]
  · have h := parseIntHexAux_lt ((wordHex w).drop 1) ((w >>> 28) % 16)
    have hlen : ((wordHex w).drop 1).length = 7 := rfl
    rw [hlen] at h
    have : ((w >>> 28) % 16 + 1) * 16 ^ 7 ≤ 16 * 16 ^ 7 := Nat.mul_le_mul_right _ (by omega)
    omega

theorem sha256Compress_length (h block : List Nat) : (sha256Compress h block).length = 8 := rfl

theorem sha256Loop_length (k : Nat) :
    ∀ h bytes, h.length = 8 → (sha256Loop k h bytes).length = 8 := by
  induction k with
  | zero => intro h bytes hh; simpa [sha256Loop] using hh
  | succ k ih =>
    intro h bytes hh
    simpa [sha256Loop] using ih _ (bytes.drop 64) (sha256Compress_length _ _)

theorem sha256Words_length (msg : List Nat) : (sha256Words msg).length = 8 :=
  sha256Loop_length _ _ _ rfl

theorem parseIntHex_take8_sha256Hex (s : String) :
    ∃ v, parseIntHex (strTake 8 (sha256Hex s)) = some v ∧ v < 4294967296 := by
  obtain ⟨w, ws, hw⟩ : ∃ w ws, sha256Words (utf8Bytes s) = w :: ws := by
    cases heq : sha256Words (utf8Bytes s) with
    | nil => have := sha256Words_length (utf8Bytes s); rw [heq] at this; simp at this
    | cons w ws => exact ⟨w, ws, rfl⟩
  have hdata : (strTake 8 (sha256Hex s)).data = wordHex w := by
    simp only [sha256Hex, strTake, hw, List.map_cons, List.flatten_cons]
    have : (8 : Nat) = (wordHex w).length := (wordHex_length w).symm
    rw [this, List.take_left]
  obtain ⟨v, hv, hlt⟩ := parseIntHex_wordHex w
  refine ⟨v, ?_, hlt⟩
  have : strTake 8 (sha256Hex s) = ⟨wordHex w⟩ := by
    cases hst : strTake 8 (sha256Hex s)
    simp only [hst] at hdata
    simp [hdata]
  rw [this]
  exact hv

/-! ## Claim theorems: Fairness Engine -/

/-- **C1**: for every server seed `s`, client seed `c` and nonce `n`,
`generateResult` returns as its hash the SHA-256 hex digest of
`s ++ ":" ++ c ++ ":" ++ n` (nonce rendered in decimal), and its side is
`heads` exactly when the unsigned 32-bit integer parsed from the first 8 hex
characters of that digest is even, `tails` exactly when it is odd. -/
theorem generateResult_hash_and_parity (s c : String) (n : Nat) :
    (generateResult s c n).hash = sha256Hex (s ++ ":" ++ c ++ ":" ++ Nat.repr n) ∧
    ∃ v, parseIntHex (strTake 8 (sha256Hex (s ++ ":" ++ c ++ ":" ++ Nat.repr n))) = some v ∧
      v < 4294967296 ∧
      ((generateResult s c n).result = CoinSide.heads ↔ v % 2 = 0) ∧
      ((generateResult s c n).result = CoinSide.tails ↔ v % 2 = 1) := by
  obtain ⟨v, hv, hlt⟩ := parseIntHex_take8_sha256Hex (s ++ ":" ++ c ++ ":" ++ Nat.repr n)
  refine ⟨rfl, v, hv, hlt, ?_⟩
  simp only [generateResult, hv]
  by_cases h : v % 2 = 0
  · simp [h]
  · simp [h]
    omega

/-- **C2**: `verifyResult` accepts the hash and side just computed by
`generateResult` for the same triple, and rejects when the hash or the side is
altered, and when an altered server seed, client seed or nonce changes the
recomputed digest (as any alteration does, barring a SHA-256 collision). -/
theorem verifyResult_roundtrip_and_tamper (s c : String) (n : Nat) :
    verifyResult s c n (generateResult s c n).hash (generateResult s c n).result = true ∧
    (∀ h, h ≠ (generateResult s c n).hash →
      verifyResult s c n h (generateResult s c n).result = false) ∧
    (∀ r, r ≠ (generateResult s c n).result →
      verifyResult s c n (generateResult s c n).hash r = false) ∧
    (∀ s', (generateResult s' c n).hash ≠ (generateResult s c n).hash →
      verifyResult s' c n (generateResult s c n).hash (generateResult s c n).result = false) ∧
    (∀ c', (generateResult s c' n).hash ≠ (generateResult s c n).hash →
      verifyResult s c' n (generateResult s c n).hash (generateResult s c n).result = false) ∧
    (∀ n', (generateResult s c n').hash ≠ (generateResult s c n).hash →
      verifyResult s c n' (generateResult s c n).hash (generateResult s c n).result = false) := by
  refine ⟨by simp [verifyResult], ?_, ?_, ?_, ?_, ?_⟩ <;>
    intro x hx <;> simp [verifyResult, hx] <;> intro h <;> simp_all

/-- **C2 witness**: the concrete triple `("a", "b", 1)` round-trips, and each
single-argument alteration is rejected. -/
theorem verifyResult_roundtrip_and_tamper_witness :
    verifyResult "a" "b" 1 (generateResult "a" "b" 1).hash (generateResult "a" "b" 1).result = true ∧
    verifyResult "a" "b" 1 "deadbeef" (generateResult "a" "b" 1).result = false ∧
    verifyResult "a" "b" 1 (generateResult "a" "b" 1).hash CoinSide.heads = false ∧
    verifyResult "aa" "b" 1 (generateResult "a" "b" 1).hash (generateResult "a" "b" 1).result = false ∧
    verifyResult "a" "bb" 1 (generateResult "a" "b" 1).hash (generateResult "a" "b" 1).result = false ∧
    verifyResult "a" "b" 2 (generateResult "a" "b" 1).hash (generateResult "a" "b" 1).result = false :=
  ⟨(verifyResult_roundtrip_and_tamper "a" "b" 1).1,
   (verifyResult_roundtrip_and_tamper "a" "b" 1).2.1 "deadbeef" (by decide),
   (verifyResult_roundtrip_and_tamper "a" "b" 1).2.2.1 CoinSide.heads (by decide),
   (verifyResult_roundtrip_and_tamper "a" "b" 1).2.2.2.1 "aa" (by decide),
   (verifyResult_roundtrip_and_tamper "a" "b" 1).2.2.2.2.1 "bb" (by decide),
   (verifyResult_roundtrip_and_tamper "a" "b" 1).2.2.2.2.2 2 (by decide)⟩

/-- **C9**: `verifyResult` is a total boolean function — the embedding of a
`try`/`catch` around a computation that cannot throw — and it returns `true`
exactly when both the hash and the side match the recomputation, hence
`false` on any mismatch or malformed expected value. -/
theorem verifyResult_total_and_false_on_mismatch (s c : String) (n : Nat)
    (h : String) (r : CoinSide) :
    (verifyResult s c n h r = true ∨ verifyResult s c n h r = false) ∧
    (verifyResult s c n h r = true ↔
      h = (generateResult s c n).hash ∧ r = (generateResult s c n).result) ∧
    (h ≠ (generateResult s c n).hash ∨ r ≠ (generateResult s c n).result →
      verifyResult s c n h r = false) := by
  refine ⟨Bool.eq_false_or_eq_true _, ?_, ?_⟩
  · constructor
    · intro hv
      simp only [verifyResult, Bool.and_eq_true, beq_iff_eq] at hv
      exact ⟨hv.1.symm, hv.2.symm⟩
    · rintro ⟨rfl, rfl⟩
      simp [verifyResult]
  · rintro (hx | hx)
    · simp only [verifyResult, Bool.and_eq_false_iff]
      exact Or.inl (by simp; exact fun hh => absurd hh.symm hx)
    · simp only [verifyResult, Bool.and_eq_false_iff]
      exact Or.inr (by simp; exact fun hh => absurd hh.symm hx)

/-- **C9 witness**: a malformed expected hash is rejected (not an exception)
on a concrete input. -/
theorem verifyResult_total_and_false_on_mismatch_witness :
    verifyResult "a" "b" 1 "not-a-hex-hash" CoinSide.heads = false :=
  (verifyResult_total_and_false_on_mismatch "a" "b" 1 "not-a-hex-hash" CoinSide.heads).2.2
    (Or.inl (by decide))

/-! ## List and store helper lemmas -/

theorem filter_and {α : Type} (p q : α → Bool) (l : List α) :
    l.filter (fun a => p a && q a) = (l.filter p).filter q := by
  induction l with
  | nil => rfl
  | cons x xs ih =>
    by_cases hp : p x = true <;> by_cases hq : q x = true <;>
      simp [List.filter_cons, hp, hq, ih]

theorem filter_comm' {α : Type} (p q : α → Bool) (l : List α) :
    (l.filter p).filter q = (l.filter q).filter p := by
  rw [← filter_and, ← filter_and]
  exact List.filter_congr (fun a _ => Bool.and_comm _ _)

theorem length_filter_not {α : Type} (p : α → Bool) (l : List α) :
    (l.filter (fun a => !(p a))).length + (l.filter p).length = l.length := by
  induction l with
  | nil => rfl
  | cons a l ih => cases hp : p a <;> simp [List.filter_cons, hp] <;> omega

theorem updateRooms_players (db : DB) (rid : Nat) (f : Room → Room) :
    (updateRooms db rid f).players = db.players := rfl

theorem updateRooms_games (db : DB) (rid : Nat) (f : Room → Room) :
    (updateRooms db rid f).games = db.games := rfl

theorem updateRooms_nextId (db : DB) (rid : Nat) (f : Room → Room) :
    (updateRooms db rid f).nextId = db.nextId := rfl

theorem playersOf_eq (db : DB) (rid : Nat) :
    playersOf db rid = db.players.filter (fun p => p.room_id == rid) := rfl

/-- Filtering by a row id commutes with an id-preserving update-by-id. -/
theorem filter_id_map_update (l : List Room) (rid : Nat) (f : Room → Room)
    (hf : ∀ r, (f r).id = r.id) :
    (l.map (fun r => if r.id == rid then f r else r)).filter (fun r => r.id == rid) =
      (l.filter (fun r => r.id == rid)).map f := by
  induction l with
  | nil => rfl
  | cons a l ih =>
    simp only [List.map_cons, List.filter_cons]
    by_cases ha : a.id = rid
    · simp only [ha, beq_self_eq_true, if_true, List.filter_cons, hf, List.map_cons, ih]
    · have hb : (a.id == rid) = false := by simp [ha]
      simp only [hb, Bool.false_eq_true, if_false, List.filter_cons, ih]

/-! ## Concrete fixtures for the witness theorems -/

def sampleRoom : Room :=
  { id := 0, code := "ROOM01", creator_side := .heads, stake_amount := 10, total_pot := 20,
    status := .full, server_seed := "a", client_seed := some "b", nonce := 0 }

def sampleCreator : Player :=
  { id := 1, room_id := 0, socket_id := "s1", name := "Alice", side := .heads,
    is_creator := true, stake_amount := 10, has_paid := true }

def sampleJoiner : Player :=
  { id := 2, room_id := 0, socket_id := "s2", name := "Bob", side := .tails,
    is_creator := false, stake_amount := 10, has_paid := true }

def sampleDB : DB :=
  { rooms := [sampleRoom], players := [sampleCreator, sampleJoiner], games := [], nextId := 3 }

/-! ## Claim theorems: state machine, error paths -/

/-- **C5**: `flipCoin` on a room in status `waiting` fails with an error and
leaves the store — status, nonce, seeds, and the games table — untouched:
the `.in('status', ['full', 'completed'])` selection cannot match it. -/
theorem flipCoin_waiting_fails (db : DB) (roomId : Nat) (gok : Bool) (room : Room)
    (huniq : db.rooms.filter (fun r => r.id == roomId) = [room])
    (hstatus : room.status = RoomStatus.waiting) :
    flipCoin roomId gok db = (db, Except.error GameErr.roomNotReady) := by
  have hsel : db.rooms.filter (fun r => r.id == roomId &&
      (r.status == RoomStatus.full || r.status == RoomStatus.completed)) = [] := by
    rw [filter_and, huniq]
    simp [List.filter_cons, hstatus]
  simp [flipCoin, hsel, selectSingle]

/-- **C5 witness**: a concrete one-player-style waiting room makes `flipCoin`
fail while returning the store unchanged. -/
theorem flipCoin_waiting_fails_witness :
    flipCoin 0 true { sampleDB with rooms := [{ sampleRoom with status := .waiting }] } =
      ({ sampleDB with rooms := [{ sampleRoom with status := .waiting }] },
       Except.error GameErr.roomNotReady) :=
  flipCoin_waiting_fails _ 0 true { sampleRoom with status := .waiting } (by decide) (by decide)

/-- The game record inserted by a successful flip, for seed `cs` and winner `wp`. -/
def flipGameRecord (roomId : Nat) (room : Room) (db : DB) (cs : String) (wp : Player) : Game :=
  { id := db.nextId, room_id := roomId,
    flip_result := (generateResult room.server_seed cs (room.nonce + 1)).result,
    winner_side := (generateResult room.server_seed cs (room.nonce + 1)).result,
    winner_player_id := wp.id, total_pot := room.total_pot,
    server_seed := room.server_seed, client_seed := cs, nonce := room.nonce + 1,
    hash_result := (generateResult room.server_seed cs (room.nonce + 1)).hash,
    is_verified := true }

/-- Every run of `flipResolve` either errors with the store untouched, or
succeeds by appending one game record and marking the room completed with the
incremented nonce. -/
theorem flipResolve_cases (roomId : Nat) (room : Room) (gok : Bool) (db : DB) :
    (∃ e, flipResolve roomId room gok db = (db, Except.error e)) ∨
    (∃ cs wp,
      room.client_seed = some cs ∧
      (playersOf db roomId).find? (fun p =>
        p.side == (generateResult room.server_seed cs (room.nonce + 1)).result) = some wp ∧
      flipResolve roomId room gok db =
        (updateRooms
          { db with games := db.games ++ [flipGameRecord roomId room db cs wp],
                    nextId := db.nextId + 1 } roomId
          (fun r => { r with status := .completed, nonce := room.nonce + 1 }),
         Except.ok
          { result := (generateResult room.server_seed cs (room.nonce + 1)).result,
            winner := (generateResult room.server_seed cs (room.nonce + 1)).result,
            game := flipGameRecord roomId room db cs wp,
            verification := createVerificationData room.server_seed cs (room.nonce + 1),
            winnerPlayer := wp })) := by
  unfold flipResolve
  cases hcs : room.client_seed with
  | none => exact Or.inl ⟨.missingClientSeed, rfl⟩
  | some cs =>
    simp only
    by_cases hlen : (playersOf db roomId).length ≠ 2
    · exact Or.inl ⟨.invalidPlayerCount, by rw [if_pos hlen]⟩
    · rw [if_neg hlen]
      cases hfind : (playersOf db roomId).find? (fun p =>
          p.side == (generateResult room.server_seed cs (room.nonce + 1)).result) with
      | none => exact Or.inl ⟨.noWinnerDetermined, rfl⟩
      | some wp =>
        cases gok with
        | false => exact Or.inl ⟨.gameInsertFailed, rfl⟩
        | true => exact Or.inr ⟨cs, wp, rfl, hfind, rfl⟩

theorem flipResolve_error_games (roomId : Nat) (room : Room) (gok : Bool) (db : DB) (e : GameErr)
    (herr : (flipResolve roomId room gok db).2 = Except.error e) :
    (flipResolve roomId room gok db).1.games = db.games := by
  rcases flipResolve_cases roomId room gok db with ⟨e', heq⟩ | ⟨cs, wp, _, _, heq⟩
  · rw [heq]
  · rw [heq] at herr
    simp at herr

/-- **C10**: whenever `flipCoin` ends in an error — room not found or not in
an allowed status, missing client seed, wrong player count, no matching
winner, or a rejected game insert — the games table is exactly what it was
before the call (even though a replay reset of the room's status may already
have been applied). -/
theorem flipCoin_error_preserves_games (db : DB) (roomId : Nat) (gok : Bool) (e : GameErr)
    (herr : (flipCoin roomId gok db).2 = Except.error e) :
    (flipCoin roomId gok db).1.games = db.games := by
  unfold flipCoin at herr ⊢
  cases hsel : selectSingle (db.rooms.filter (fun r => r.id == roomId &&
      (r.status == RoomStatus.full || r.status == RoomStatus.completed))) with
  | none => simp [hsel]
  | some room =>
    simp only [hsel] at herr ⊢
    by_cases hc : (room.status == RoomStatus.completed) = true
    · simp only [hc, if_true] at herr ⊢
      exact flipResolve_error_games _ _ _ _ _ herr
    · simp only [Bool.not_eq_true] at hc
      simp only [hc, Bool.false_eq_true, if_false] at herr ⊢
      exact flipResolve_error_games _ _ _ _ _ herr

/-- **C10 witness**: a `flipCoin` call that errors (unknown room id) leaves
the concrete store's games table unchanged. -/
theorem flipCoin_error_preserves_games_witness :
    (flipCoin 5 true sampleDB).1.games = sampleDB.games :=
  flipCoin_error_preserves_games sampleDB 5 true GameErr.roomNotReady rfl

theorem flipResolve_no_winner (roomId : Nat) (room : Room) (gok : Bool) (db : DB)
    (cs : String) (p1 p2 : Player)
    (hcs : room.client_seed = some cs)
    (hp : playersOf db roomId = [p1, p2])
    (h1 : p1.side ≠ (generateResult room.server_seed cs (room.nonce + 1)).result)
    (h2 : p2.side ≠ (generateResult room.server_seed cs (room.nonce + 1)).result) :
    flipResolve roomId room gok db = (db, Except.error GameErr.noWinnerDetermined) := by
  unfold flipResolve
  rw [hcs]
  simp only [hp]
  rw [if_neg (by simp)]
  have hb1 : (p1.side == (generateResult room.server_seed cs (room.nonce + 1)).result) = false := by
    simp [h1]
  have hb2 : (p2.side == (generateResult room.server_seed cs (room.nonce + 1)).result) = false := by
    simp [h2]
  simp [List.find?, hb1, hb2]

/-- `flipCoin` reduced on a room found in status `full`. -/
theorem flipCoin_full_eq (db : DB) (roomId : Nat) (gok : Bool) (room : Room)
    (huniq : db.rooms.filter (fun r => r.id == roomId) = [room])
    (hstatus : room.status = RoomStatus.full) :
    flipCoin roomId gok db = flipResolve roomId room gok db := by
  have hsel : db.rooms.filter (fun r => r.id == roomId &&
      (r.status == RoomStatus.full || r.status == RoomStatus.completed)) = [room] := by
    rw [filter_and, huniq]
    simp [List.filter_cons, hstatus]
  unfold flipCoin
  rw [hsel]
  simp [selectSingle, hstatus]

/-- **C8**: a successful `flipCoin` persists a game whose `winner_side` equals
its `flip_result`, and returns a winner player who is a stored player of the
room with side equal to the computed result; and on a full room whose two
players both differ from the computed result, `flipCoin` fails with the
no-winner error. -/
theorem flipCoin_winner_side (db : DB) (roomId : Nat) (gok : Bool) :
    (∀ out, (flipCoin roomId gok db).2 = Except.ok out →
      out.game.winner_side = out.game.flip_result ∧
      out.winner = out.result ∧
      out.game.flip_result = out.result ∧
      out.winnerPlayer ∈ db.players ∧
      out.winnerPlayer.room_id = roomId ∧
      out.winnerPlayer.side = out.result) ∧
    (∀ room cs p1 p2,
      db.rooms.filter (fun r => r.id == roomId) = [room] →
      room.status = RoomStatus.full →
      room.client_seed = some cs →
      playersOf db roomId = [p1, p2] →
      p1.side ≠ (generateResult room.server_seed cs (room.nonce + 1)).result →
      p2.side ≠ (generateResult room.server_seed cs (room.nonce + 1)).result →
      (flipCoin roomId gok db).2 = Except.error GameErr.noWinnerDetermined) := by
  constructor
  · intro out hout
    have resolve_case : ∀ room' (db' : DB), db'.players = db.players →
        (flipResolve roomId room' gok db').2 = Except.ok out →
        out.game.winner_side = out.game.flip_result ∧
        out.winner = out.result ∧
        out.game.flip_result = out.result ∧
        out.winnerPlayer ∈ db.players ∧
        out.winnerPlayer.room_id = roomId ∧
        out.winnerPlayer.side = out.result := by
      intro room' db' hpl hok
      rcases flipResolve_cases roomId room' gok db' with ⟨e, heq⟩ | ⟨cs, wp, hcs, hfind, heq⟩
      · rw [heq] at hok
        simp at hok
      · rw [heq] at hok
        simp only [Except.ok.injEq] at hok
        subst hok
        have hmem : wp ∈ playersOf db' roomId := List.mem_of_find?_eq_some hfind
        have hpred := List.find?_some hfind
        rw [playersOf_eq] at hmem
        have hmem' := List.mem_filter.1 hmem
        refine ⟨rfl, rfl, rfl, ?_, ?_, ?_⟩
        · rw [← hpl]
          exact hmem'.1
        · simpa using hmem'.2
        · simpa using hpred
    unfold flipCoin at hout
    cases hsel : selectSingle (db.rooms.filter (fun r => r.id == roomId &&
        (r.status == RoomStatus.full || r.status == RoomStatus.completed))) with
    | none =>
      rw [hsel] at hout
      simp at hout
    | some room =>
      simp only [hsel] at hout
      by_cases hc : (room.status == RoomStatus.completed) = true
      · rw [if_pos hc] at hout
        exact resolve_case _ (resetRoomForReplay roomId db) rfl hout
      · rw [if_neg (by simp_all)] at hout
        exact resolve_case room db rfl hout
  · intro room cs p1 p2 huniq hstatus hcs hp h1 h2
    rw [flipCoin_full_eq db roomId gok room huniq hstatus,
        flipResolve_no_winner roomId room gok db cs p1 p2 hcs hp h1 h2]

/-- The outcome of flipping the concrete sample room (hash of `"a:b:1"`). -/
def sampleOutcome : FlipOutcome :=
  { result := .tails, winner := .tails,
    game := { id := 3, room_id := 0, flip_result := .tails, winner_side := .tails,
              winner_player_id := 2, total_pot := 20, server_seed := "a", client_seed := "b",
              nonce := 1,
              hash_result := "6cce7cb783ec0ac78f072eeed1c71edc1dc62959a913c7b19e533f6be2cbe9ed",
              is_verified := true },
    verification := { serverSeed := "a", clientSeed := "b", nonce := 1,
                      verificationUrl := "https://tools.pnxbet.com/fair/coinflip?server=a&client=b&nonce=1" },
    winnerPlayer := sampleJoiner }

/-- A store whose two players illegally share the side `heads`. -/
def missDB : DB :=
  { sampleDB with players := [sampleCreator, { sampleJoiner with side := .heads }] }

/-- **C8 witness**: the concrete successful flip yields the tails player as
winner with `winner_side = flip_result`, and a store whose two players both
chose `heads` (while the computed result is tails) makes `flipCoin` fail. -/
theorem flipCoin_winner_side_witness :
    (sampleOutcome.game.winner_side = sampleOutcome.game.flip_result ∧
      sampleOutcome.winner = sampleOutcome.result ∧
      sampleOutcome.game.flip_result = sampleOutcome.result ∧
      sampleOutcome.winnerPlayer ∈ sampleDB.players ∧
      sampleOutcome.winnerPlayer.room_id = 0 ∧
      sampleOutcome.winnerPlayer.side = sampleOutcome.result) ∧
    (flipCoin 0 true missDB).2 = Except.error GameErr.noWinnerDetermined :=
  ⟨(flipCoin_winner_side sampleDB 0 true).1 sampleOutcome rfl,
   (flipCoin_winner_side missDB 0 true).2 sampleRoom "b" sampleCreator
     { sampleJoiner with side := .heads } (by decide) rfl rfl (by decide)
     (by decide) (by decide)⟩

/-- **C6**: `removePlayer` with a connection id that matches no player changes
nothing; removing the creator deletes the room and, by the schema's cascade,
every remaining player of that room, while other rooms survive; removing a
non-creator deletes exactly that player and leaves rooms (hence the creator)
and games untouched. -/
theorem removePlayer_spec (db : DB) (sid : String) :
    (db.players.filter (fun p => p.socket_id == sid) = [] → removePlayer sid db = db) ∧
    (∀ player, db.players.filter (fun p => p.socket_id == sid) = [player] →
      player.is_creator = true →
      (∀ r ∈ (removePlayer sid db).rooms, r.id ≠ player.room_id) ∧
      (∀ p ∈ (removePlayer sid db).players, p.room_id ≠ player.room_id) ∧
      (∀ r ∈ db.rooms, r.id ≠ player.room_id → r ∈ (removePlayer sid db).rooms)) ∧
    (∀ player, db.players.filter (fun p => p.socket_id == sid) = [player] →
      player.is_creator = false →
      (removePlayer sid db).rooms = db.rooms ∧
      (removePlayer sid db).games = db.games ∧
      player ∉ (removePlayer sid db).players ∧
      (∀ p ∈ db.players, p ≠ player → p ∈ (removePlayer sid db).players) ∧
      (removePlayer sid db).players.length + 1 = db.players.length) := by
  refine ⟨?_, ?_, ?_⟩
  · intro hfilter
    unfold removePlayer
    rw [hfilter]
    rfl
  · intro player hfilter hcr
    have hrw : removePlayer sid db =
        deleteRoomCascade
          { db with players := db.players.filter (fun p => !(p.socket_id == sid)) }
          player.room_id := by
      unfold removePlayer
      rw [hfilter]
      simp only [selectSingle, hcr, if_true]
    rw [hrw]
    refine ⟨?_, ?_, ?_⟩
    · intro r hr
      have := (List.mem_filter.1 hr).2
      simpa using this
    · intro p hp
      have := (List.mem_filter.1 hp).2
      simpa using this
    · intro r hr hne
      exact List.mem_filter.2 ⟨hr, by simpa using hne⟩
  · intro player hfilter hcr
    have hself : player ∈ db.players ∧ (player.socket_id == sid) = true := by
      have hm : player ∈ db.players.filter (fun p => p.socket_id == sid) := by
        rw [hfilter]
        exact List.mem_singleton.2 rfl
      exact List.mem_filter.1 hm
    have hrw : removePlayer sid db =
        { db with players := db.players.filter (fun p => !(p.socket_id == sid)) } := by
      unfold removePlayer
      rw [hfilter]
      simp only [selectSingle, hcr, Bool.false_eq_true, if_false]
    rw [hrw]
    refine ⟨rfl, rfl, ?_, ?_, ?_⟩
    · intro hmem
      have := (List.mem_filter.1 hmem).2
      rw [hself.2] at this
      simp at this
    · intro p hp hne
      refine List.mem_filter.2 ⟨hp, ?_⟩
      by_contra hcon
      have hps : (p.socket_id == sid) = true := by
        cases hx : (p.socket_id == sid) with
        | true => rfl
        | false => rw [hx] at hcon; simp at hcon
      have : p ∈ db.players.filter (fun p => p.socket_id == sid) :=
        List.mem_filter.2 ⟨hp, hps⟩
      rw [hfilter] at this
      exact hne (List.mem_singleton.1 this)
    · have h := length_filter_not (fun p => p.socket_id == sid) db.players
      rw [hfilter] at h
      simpa using h

/-- **C6 witness**: on the concrete two-player store, an unknown connection id
is a no-op, removing the creator (`"s1"`) empties the room and its players,
and removing the joiner (`"s2"`) deletes only that player. -/
theorem removePlayer_spec_witness :
    removePlayer "zz" sampleDB = sampleDB ∧
    ((∀ r ∈ (removePlayer "s1" sampleDB).rooms, r.id ≠ sampleCreator.room_id) ∧
      (∀ p ∈ (removePlayer "s1" sampleDB).players, p.room_id ≠ sampleCreator.room_id)) ∧
    ((removePlayer "s2" sampleDB).rooms = sampleDB.rooms ∧
      (removePlayer "s2" sampleDB).games = sampleDB.games ∧
      sampleJoiner ∉ (removePlayer "s2" sampleDB).players ∧
      (removePlayer "s2" sampleDB).players.length + 1 = sampleDB.players.length) := by
  refine ⟨(removePlayer_spec sampleDB "zz").1 (by decide), ?_, ?_⟩
  · have h := (removePlayer_spec sampleDB "s1").2.1 sampleCreator (by decide) (by decide)
    exact ⟨h.1, h.2.1⟩
  · have h := (removePlayer_spec sampleDB "s2").2.2 sampleJoiner (by decide) (by decide)
    exact ⟨h.1, h.2.1, h.2.2.1, h.2.2.2.2⟩

/-- The player record `joinRoom` inserts on success. -/
def joinedPlayer (db : DB) (room : Room) (name : Option String) (sid : String) : Player :=
  { id := db.nextId, room_id := room.id, socket_id := sid, name := defaultName name sid,
    side := oppositeSide room.creator_side, is_creator := false, stake_amount := FIXED_STAKE,
    has_paid := true }

/-- **C4**: a successful `joinRoom` on a waiting room assigns the joining
player the strict opposite of the creator's side (for either creator side),
stores the generated client seed on the room and transitions it to `full`. -/
theorem joinRoom_assigns_opposite (db : DB) (code : String) (name : Option String)
    (sid : String) (cs : String) (room : Room)
    (hfind : db.rooms.filter (fun r => r.code == code && r.status == RoomStatus.waiting) = [room])
    (hid : db.rooms.filter (fun r => r.id == room.id) = [room])
    (hcount : (playersOf db room.id).length < 2) :
    ∃ player,
      joinRoom code name sid cs true true db =
        (updateRooms { db with players := db.players ++ [player], nextId := db.nextId + 1 }
          room.id (fun r => { r with status := RoomStatus.full, client_seed := some cs }),
         Except.ok ({ room with status := RoomStatus.full, client_seed := some cs }, player)) ∧
      player.side = oppositeSide room.creator_side ∧
      (room.creator_side = CoinSide.heads → player.side = CoinSide.tails) ∧
      (room.creator_side = CoinSide.tails → player.side = CoinSide.heads) ∧
      (joinRoom code name sid cs true true db).1.rooms.filter (fun r => r.id == room.id) =
        [{ room with status := RoomStatus.full, client_seed := some cs }] := by
  have hnot : ¬ (playersOf db room.id).length ≥ 2 := by omega
  have hmain : joinRoom code name sid cs true true db =
      (updateRooms { db with players := db.players ++ [joinedPlayer db room name sid],
                             nextId := db.nextId + 1 }
        room.id (fun r => { r with status := RoomStatus.full, client_seed := some cs }),
       Except.ok ({ room with status := RoomStatus.full, client_seed := some cs },
                  joinedPlayer db room name sid)) := by
    unfold joinRoom
    rw [hfind]
    simp only [selectSingle]
    rw [if_neg hnot]
    cases hcrs : room.creator_side <;> simp only [joinedPlayer, hcrs, oppositeSide] <;> rfl
  refine ⟨joinedPlayer db room name sid, hmain, rfl, ?_, ?_, ?_⟩
  · intro h
    simp [joinedPlayer, h, oppositeSide]
  · intro h
    simp [joinedPlayer, h, oppositeSide]
  · rw [hmain]
    show (db.rooms.map _).filter _ = _
    rw [filter_id_map_update db.rooms room.id
      (fun r => { r with status := RoomStatus.full, client_seed := some cs }) (fun r => rfl), hid]
    rfl

/-- Waiting single-player rooms and stores, one per creator side. -/
def waitingRoomH : Room := { sampleRoom with status := .waiting }

def waitingRoomT : Room := { sampleRoom with status := .waiting, creator_side := .tails }

def tailsCreator : Player := { sampleCreator with side := .tails }

def waitingDBH : DB := { rooms := [waitingRoomH], players := [sampleCreator], games := [], nextId := 3 }

def waitingDBT : DB := { rooms := [waitingRoomT], players := [tailsCreator], games := [], nextId := 3 }

/-- **C4 witness**: joining the concrete waiting rooms succeeds for both
creator sides, assigning `tails` against a `heads` creator and `heads`
against a `tails` creator, storing the seed and reaching status `full`. -/
theorem joinRoom_assigns_opposite_witness :
    (∃ player,
      joinRoom "ROOM01" none "s9" "cs" true true waitingDBH =
        (updateRooms { waitingDBH with players := waitingDBH.players ++ [player],
                                       nextId := waitingDBH.nextId + 1 }
          0 (fun r => { r with status := RoomStatus.full, client_seed := some "cs" }),
         Except.ok ({ waitingRoomH with status := RoomStatus.full, client_seed := some "cs" },
                    player)) ∧
      player.side = oppositeSide CoinSide.heads ∧
      (CoinSide.heads = CoinSide.heads → player.side = CoinSide.tails) ∧
      (joinRoom "ROOM01" none "s9" "cs" true true waitingDBH).1.rooms.filter
          (fun r => r.id == 0) =
        [{ waitingRoomH with status := RoomStatus.full, client_seed := some "cs" }]) ∧
    (∃ player : Player,
      player.side = oppositeSide CoinSide.tails ∧
      (CoinSide.tails = CoinSide.tails → player.side = CoinSide.heads) ∧
      (joinRoom "ROOM01" none "s9" "cs" true true waitingDBT).1.rooms.filter
          (fun r => r.id == 0) =
        [{ waitingRoomT with status := RoomStatus.full, client_seed := some "cs" }]) := by
  constructor
  · obtain ⟨player, h1, h2, h3, _, h5⟩ :=
      joinRoom_assigns_opposite waitingDBH "ROOM01" none "s9" "cs" waitingRoomH
        (by decide) (by decide) (by decide)
    exact ⟨player, h1, h2, h3, h5⟩
  · obtain ⟨player, _, h2, _, h4, h5⟩ :=
      joinRoom_assigns_opposite waitingDBT "ROOM01" none "s9" "cs" waitingRoomT
        (by decide) (by decide) (by decide)
    exact ⟨player, h2, h4, h5⟩

/-- With a client seed and two opposite-sided players, `flipResolve` (with an
accepting store) finds a winner and succeeds. -/
theorem flipResolve_success (roomId : Nat) (room : Room) (db : DB) (cs : String) (p1 p2 : Player)
    (hcs : room.client_seed = some cs)
    (hp : playersOf db roomId = [p1, p2])
    (hopp : p1.side = oppositeSide p2.side) :
    ∃ wp, flipResolve roomId room true db =
      (updateRooms { db with games := db.games ++ [flipGameRecord roomId room db cs wp],
                             nextId := db.nextId + 1 } roomId
        (fun r => { r with status := RoomStatus.completed, nonce := room.nonce + 1 }),
       Except.ok
        { result := (generateResult room.server_seed cs (room.nonce + 1)).result,
          winner := (generateResult room.server_seed cs (room.nonce + 1)).result,
          game := flipGameRecord roomId room db cs wp,
          verification := createVerificationData room.server_seed cs (room.nonce + 1),
          winnerPlayer := wp }) := by
  unfold flipResolve
  rw [hcs]
  simp only [hp]
  rw [if_neg (by simp)]
  cases hres : (generateResult room.server_seed cs (room.nonce + 1)).result with
  | heads =>
    cases h2 : p2.side with
    | heads =>
      have h1 : (p1.side == CoinSide.heads) = false := by
        rw [hopp, h2]
        rfl
      refine ⟨p2, ?_⟩
      simp only [List.find?, h1, h2, beq_self_eq_true]
      simp [flipGameRecord, hres]
    | tails =>
      have h1 : (p1.side == CoinSide.heads) = true := by
        rw [hopp, h2]
        rfl
      refine ⟨p1, ?_⟩
      simp only [List.find?, h1]
      simp [flipGameRecord, hres]
  | tails =>
    cases h2 : p2.side with
    | heads =>
      have h1 : (p1.side == CoinSide.tails) = true := by
        rw [hopp, h2]
        rfl
      refine ⟨p1, ?_⟩
      simp only [List.find?, h1]
      simp [flipGameRecord, hres]
    | tails =>
      have h1 : (p1.side == CoinSide.tails) = false := by
        rw [hopp, h2]
        rfl
      refine ⟨p2, ?_⟩
      simp only [List.find?, h1, h2, beq_self_eq_true]
      simp [flipGameRecord, hres]

/-- **C3**: `flipCoin` on a completed room with a client seed and two
opposite-sided players succeeds as a replay: the room is reset to `full`
(seeds and nonce untouched) before resolving, a new game record is appended
whose nonce is the previous nonce plus one and whose seeds are the room's
original seeds, and the room ends `completed` carrying the incremented nonce
and unchanged seeds. -/
theorem flipCoin_replay (db : DB) (room : Room) (cs : String) (p1 p2 : Player)
    (hid : db.rooms.filter (fun r => r.id == room.id) = [room])
    (hstatus : room.status = RoomStatus.completed)
    (hcs : room.client_seed = some cs)
    (hplayers : playersOf db room.id = [p1, p2])
    (hopp : p1.side = oppositeSide p2.side) :
    (resetRoomForReplay room.id db).rooms.filter (fun r => r.id == room.id) =
        [{ room with status := RoomStatus.full }] ∧
    flipCoin room.id true db =
      flipResolve room.id { room with status := RoomStatus.full } true
        (resetRoomForReplay room.id db) ∧
    ∃ out, (flipCoin room.id true db).2 = Except.ok out ∧
      out.game.nonce = room.nonce + 1 ∧
      out.game.server_seed = room.server_seed ∧
      out.game.client_seed = cs ∧
      (flipCoin room.id true db).1.games = db.games ++ [out.game] ∧
      (flipCoin room.id true db).1.rooms.filter (fun r => r.id == room.id) =
        [{ room with status := RoomStatus.completed, nonce := room.nonce + 1 }] := by
  have hreset : (resetRoomForReplay room.id db).rooms.filter (fun r => r.id == room.id) =
      [{ room with status := RoomStatus.full }] := by
    show (db.rooms.map _).filter _ = _
    rw [filter_id_map_update db.rooms room.id (fun r => { r with status := RoomStatus.full })
      (fun r => rfl), hid]
    rfl
  have hsel : db.rooms.filter (fun r => r.id == room.id &&
      (r.status == RoomStatus.full || r.status == RoomStatus.completed)) = [room] := by
    rw [filter_and, hid]
    simp [List.filter_cons, hstatus]
  have hflip : flipCoin room.id true db =
      flipResolve room.id { room with status := RoomStatus.full } true
        (resetRoomForReplay room.id db) := by
    unfold flipCoin
    rw [hsel]
    simp only [selectSingle]
    rw [if_pos (by simp [hstatus])]
    simp only [resetRoomForReplay] at hreset ⊢
    rw [hreset]
  obtain ⟨wp, hres⟩ := flipResolve_success room.id { room with status := RoomStatus.full }
    (resetRoomForReplay room.id db) cs p1 p2 hcs hplayers hopp
  refine ⟨hreset, hflip, ?_⟩
  rw [hflip, hres]
  refine ⟨_, rfl, rfl, rfl, rfl, rfl, ?_⟩
  show ((resetRoomForReplay room.id db).rooms.map _).filter _ = _
  rw [filter_id_map_update (resetRoomForReplay room.id db).rooms room.id
    (fun r => { r with status := RoomStatus.completed, nonce := room.nonce + 1 })
    (fun r => rfl), hreset]
  rfl

/-- The sample room after its first completed game. -/
def completedRoom : Room := { sampleRoom with status := .completed }

/-- A store holding one completed two-player room, ready for a replay. -/
def replayDB : DB :=
  { rooms := [completedRoom], players := [sampleCreator, sampleJoiner], games := [], nextId := 3 }

/-- **C3 witness**: replaying the concrete completed room routes through the
reset-to-`full` state and yields a new game with nonce 1 and the original
seeds, ending `completed`. -/
theorem flipCoin_replay_witness :
    (resetRoomForReplay 0 replayDB).rooms.filter (fun r => r.id == 0) =
        [{ completedRoom with status := RoomStatus.full }] ∧
    flipCoin 0 true replayDB =
      flipResolve 0 { completedRoom with status := RoomStatus.full } true
        (resetRoomForReplay 0 replayDB) ∧
    ∃ out, (flipCoin 0 true replayDB).2 = Except.ok out ∧
      out.game.nonce = completedRoom.nonce + 1 ∧
      out.game.server_seed = completedRoom.server_seed ∧
      out.game.client_seed = "b" ∧
      (flipCoin 0 true replayDB).1.games = replayDB.games ++ [out.game] ∧
      (flipCoin 0 true replayDB).1.rooms.filter (fun r => r.id == 0) =
        [{ completedRoom with status := RoomStatus.completed,
                              nonce := completedRoom.nonce + 1 }] :=
  flipCoin_replay replayDB completedRoom "b" sampleCreator sampleJoiner
    (by decide) rfl rfl (by decide) (by decide)

/-! ## The player-per-room invariant (C7) -/

theorem oppositeSide_involutive (s : CoinSide) : oppositeSide (oppositeSide s) = s := by
  cases s <;> rfl

theorem ne_oppositeSide (s : CoinSide) : s ≠ oppositeSide s := by
  cases s <;> decide

/-- The claim's invariant: at most two players per room, and the two players
of a full room hold literally opposite, never equal, sides. -/
def RoomPlayersOk (db : DB) : Prop :=
  ∀ r ∈ db.rooms, (playersOf db r.id).length ≤ 2 ∧
    ∀ p1 p2 : Player, playersOf db r.id = [p1, p2] →
      p1.side = oppositeSide p2.side ∧ p1.side ≠ p2.side

/-- The inductive store invariant the four operations maintain: unique ids,
id freshness against the counter, the player-count bound, exactly one creator
per room whose side is the room's `creator_side`, and non-creators on the
opposite side. -/
def Inv (db : DB) : Prop :=
  (db.rooms.map Room.id).Nodup ∧
  (db.players.map Player.id).Nodup ∧
  (∀ r ∈ db.rooms, r.id < db.nextId) ∧
  (∀ p ∈ db.players, p.id < db.nextId ∧ p.room_id < db.nextId) ∧
  (∀ r ∈ db.rooms, (playersOf db r.id).length ≤ 2) ∧
  (∀ r ∈ db.rooms, ∃ p ∈ db.players, p.room_id = r.id ∧ p.is_creator = true) ∧
  (∀ r ∈ db.rooms, ∀ p ∈ db.players, p.room_id = r.id →
      p.side = (if p.is_creator then r.creator_side else oppositeSide r.creator_side)) ∧
  (∀ p1 ∈ db.players, ∀ p2 ∈ db.players,
      p1.room_id = p2.room_id → p1.is_creator = true → p2.is_creator = true → p1.id = p2.id)

/-- The inductive invariant entails the claimed player-per-room property. -/
theorem Inv.roomPlayersOk {db : DB} (h : Inv db) : RoomPlayersOk db := by
  obtain ⟨hrn, hpn, hrf, hpf, hcount, hcreator, hsides, huniq⟩ := h
  intro r hr
  refine ⟨hcount r hr, ?_⟩
  intro p1 p2 hp
  have hm1 : p1 ∈ playersOf db r.id := by rw [hp]; simp
  have hm2 : p2 ∈ playersOf db r.id := by rw [hp]; simp
  have h1 := List.mem_filter.1 hm1
  have h2 := List.mem_filter.1 hm2
  have hr1 : p1.room_id = r.id := by simpa using h1.2
  have hr2 : p2.room_id = r.id := by simpa using h2.2
  have hnodup : ((playersOf db r.id).map Player.id).Nodup :=
    List.Nodup.sublist (List.Sublist.map _ (List.filter_sublist _)) hpn
  rw [hp] at hnodup
  have hne_id : p1.id ≠ p2.id := by
    simp only [List.map_cons, List.map_nil, List.nodup_cons] at hnodup
    intro hcon
    exact hnodup.1 (by simp [hcon])
  obtain ⟨pc, hpc_mem, hpc_room, hpc_cr⟩ := hcreator r hr
  have hpc_in : pc ∈ playersOf db r.id := List.mem_filter.2 ⟨hpc_mem, by simpa using hpc_room⟩
  rw [hp] at hpc_in
  have hs1 := hsides r hr p1 h1.1 hr1
  have hs2 := hsides r hr p2 h2.1 hr2
  have hsplit : pc = p1 ∨ pc = p2 := by simpa using hpc_in
  have key : (p1.is_creator = true ∧ p2.is_creator = false) ∨
      (p1.is_creator = false ∧ p2.is_creator = true) := by
    cases hc1 : p1.is_creator with
    | true =>
      cases hc2 : p2.is_creator with
      | true => exact absurd (huniq p1 h1.1 p2 h2.1 (hr1.trans hr2.symm) hc1 hc2) hne_id
      | false => exact Or.inl ⟨rfl, rfl⟩
    | false =>
      cases hc2 : p2.is_creator with
      | true => exact Or.inr ⟨rfl, rfl⟩
      | false =>
        rcases hsplit with rfl | rfl
        · rw [hpc_cr] at hc1
          cases hc1
        · rw [hpc_cr] at hc2
          cases hc2
  rcases key with ⟨hc1, hc2⟩ | ⟨hc1, hc2⟩
  · rw [hc1] at hs1
    rw [hc2] at hs2
    simp only [if_true, Bool.false_eq_true, if_false] at hs1 hs2
    refine ⟨?_, ?_⟩
    · rw [hs1, hs2, oppositeSide_involutive]
    · rw [hs1, hs2]
      exact ne_oppositeSide _
  · rw [hc1] at hs1
    rw [hc2] at hs2
    simp only [if_true, Bool.false_eq_true, if_false] at hs1 hs2
    refine ⟨?_, ?_⟩
    · rw [hs1, hs2]
    · rw [hs1, hs2]
      exact (ne_oppositeSide _).symm

/-- `Inv` only inspects rooms, players and the counter, monotonically in the
counter. -/
theorem Inv_of_parts {db db' : DB} (h : Inv db) (hr : db'.rooms = db.rooms)
    (hp : db'.players = db.players) (hn : db.nextId ≤ db'.nextId) : Inv db' := by
  obtain ⟨hrn, hpn, hrf, hpf, hcount, hcreator, hsides, huniq⟩ := h
  refine ⟨by rw [hr]; exact hrn, by rw [hp]; exact hpn, ?_, ?_, ?_, ?_, ?_, ?_⟩
  · intro r hrm
    rw [hr] at hrm
    exact Nat.lt_of_lt_of_le (hrf r hrm) hn
  · intro p hpm
    rw [hp] at hpm
    exact ⟨Nat.lt_of_lt_of_le (hpf p hpm).1 hn, Nat.lt_of_lt_of_le (hpf p hpm).2 hn⟩
  · intro r hrm
    rw [hr] at hrm
    rw [playersOf_eq, hp]
    exact hcount r hrm
  · intro r hrm
    rw [hr] at hrm
    rw [hp]
    exact hcreator r hrm
  · intro r hrm p hpm
    rw [hr] at hrm
    rw [hp] at hpm
    exact hsides r hrm p hpm
  · intro p1 h1 p2 h2
    rw [hp] at h1 h2
    exact huniq p1 h1 p2 h2

/-- `Inv` is preserved by any update-by-id that keeps a room's id and
creator side. -/
theorem Inv_updateRooms (db : DB) (rid : Nat) (f : Room → Room)
    (hfid : ∀ r, (f r).id = r.id) (hfcs : ∀ r, (f r).creator_side = r.creator_side)
    (h : Inv db) : Inv (updateRooms db rid f) := by
  obtain ⟨hrn, hpn, hrf, hpf, hcount, hcreator, hsides, huniq⟩ := h
  have hgid : ∀ r : Room, (if r.id == rid then f r else r).id = r.id := by
    intro r
    split
    · exact hfid r
    · rfl
  have hgcs : ∀ r : Room, (if r.id == rid then f r else r).creator_side = r.creator_side := by
    intro r
    split
    · exact hfcs r
    · rfl
  have hmap : (updateRooms db rid f).rooms.map Room.id = db.rooms.map Room.id := by
    show (db.rooms.map _).map Room.id = _
    rw [List.map_map]
    exact List.map_congr_left (fun r _ => hgid r)
  have hmem : ∀ r' ∈ (updateRooms db rid f).rooms,
      ∃ r ∈ db.rooms, r'.id = r.id ∧ r'.creator_side = r.creator_side := by
    intro r' hr'
    obtain ⟨r, hrm, hre⟩ := List.mem_map.1 hr'
    exact ⟨r, hrm, by rw [← hre]; exact hgid r, by rw [← hre]; exact hgcs r⟩
  refine ⟨by rw [hmap]; exact hrn, hpn, ?_, hpf, ?_, ?_, ?_, huniq⟩
  · intro r' hr'
    obtain ⟨r, hrm, hre, _⟩ := hmem r' hr'
    rw [hre]
    exact hrf r hrm
  · intro r' hr'
    obtain ⟨r, hrm, hre, _⟩ := hmem r' hr'
    rw [playersOf_eq, updateRooms_players, hre]
    exact hcount r hrm
  · intro r' hr'
    obtain ⟨r, hrm, hre, _⟩ := hmem r' hr'
    rw [hre]
    exact hcreator r hrm
  · intro r' hr' p hpm hproom
    obtain ⟨r, hrm, hre, hcse⟩ := hmem r' hr'
    rw [hre] at hproom
    rw [hcse]
    exact hsides r hrm p hpm hproom

theorem selectSingle_eq_some {α : Type} {l : List α} {a : α} (h : selectSingle l = some a) :
    l = [a] := by
  unfold selectSingle at h
  split at h <;> simp_all

theorem length_playersOf_filter (l : List Player) (q : Player → Bool) (rid : Nat) :
    ((l.filter q).filter (fun p => p.room_id == rid)).length ≤
      (l.filter (fun p => p.room_id == rid)).length := by
  rw [filter_comm']
  exact List.length_filter_le _ _

theorem Inv_removePlayer (db : DB) (sid : String) (h : Inv db) : Inv (removePlayer sid db) := by
  obtain ⟨hrn, hpn, hrf, hpf, hcount, hcreator, hsides, huniq⟩ := h
  unfold removePlayer
  cases hsel : selectSingle (db.players.filter (fun p => p.socket_id == sid)) with
  | none => exact ⟨hrn, hpn, hrf, hpf, hcount, hcreator, hsides, huniq⟩
  | some player =>
    have hfilter := selectSingle_eq_some hsel
    have hpmem : player ∈ db.players ∧ (player.socket_id == sid) = true := by
      have : player ∈ db.players.filter (fun p => p.socket_id == sid) := by
        rw [hfilter]
        exact List.mem_singleton.2 rfl
      exact List.mem_filter.1 this
    have hsockonly : ∀ q ∈ db.players, (q.socket_id == sid) = true → q = player := by
      intro q hq hqs
      have : q ∈ db.players.filter (fun p => p.socket_id == sid) := List.mem_filter.2 ⟨hq, hqs⟩
      rw [hfilter] at this
      exact List.mem_singleton.1 this
    have hpn1 : ((db.players.filter (fun p => !(p.socket_id == sid))).map Player.id).Nodup :=
      List.Nodup.sublist (List.Sublist.map _ (List.filter_sublist _)) hpn
    cases hcr : player.is_creator with
    | false =>
      simp only [hcr, Bool.false_eq_true, if_false]
      refine ⟨hrn, hpn1, hrf, ?_, ?_, ?_, ?_, ?_⟩
      · intro p hp
        exact hpf p (List.mem_of_mem_filter hp)
      · intro r hrm
        rw [playersOf_eq] at *
        exact Nat.le_trans (length_playersOf_filter _ _ _) (hcount r hrm)
      · intro r hrm
        obtain ⟨pc, hpc, hpcr, hpcc⟩ := hcreator r hrm
        refine ⟨pc, List.mem_filter.2 ⟨hpc, ?_⟩, hpcr, hpcc⟩
        cases hx : (pc.socket_id == sid) with
        | false => rfl
        | true =>
          have := hsockonly pc hpc hx
          subst this
          rw [hpcc] at hcr
          cases hcr
      · intro r hrm p hp
        exact hsides r hrm p (List.mem_of_mem_filter hp)
      · intro p1 h1 p2 h2
        exact huniq p1 (List.mem_of_mem_filter h1) p2 (List.mem_of_mem_filter h2)
    | true =>
      simp only [hcr, if_true]
      unfold deleteRoomCascade
      refine ⟨?_, ?_, ?_, ?_, ?_, ?_, ?_, ?_⟩
      · exact List.Nodup.sublist (List.Sublist.map _ (List.filter_sublist _)) hrn
      · exact List.Nodup.sublist (List.Sublist.map _ (List.filter_sublist _)) hpn1
      · intro r hrm
        exact hrf r (List.mem_of_mem_filter hrm)
      · intro p hp
        exact hpf p (List.mem_of_mem_filter (List.mem_of_mem_filter hp))
      · intro r hrm
        rw [playersOf_eq]
        refine Nat.le_trans (length_playersOf_filter _ _ _) ?_
        refine Nat.le_trans (length_playersOf_filter _ _ _) ?_
        exact hcount r (List.mem_of_mem_filter hrm)
      · intro r hrm
        have hrm' := List.mem_filter.1 hrm
        have hrne : r.id ≠ player.room_id := by simpa using hrm'.2
        obtain ⟨pc, hpc, hpcr, hpcc⟩ := hcreator r hrm'.1
        have hpcs : (pc.socket_id == sid) = false := by
          cases hx : (pc.socket_id == sid) with
          | false => rfl
          | true =>
            have := hsockonly pc hpc hx
            subst this
            exact absurd (hpcr.symm.trans rfl) (by rw [hpcr] at hrne ⊢; exact fun hx2 => hrne rfl)
        refine ⟨pc, List.mem_filter.2 ⟨List.mem_filter.2 ⟨hpc, by rw [hpcs]; rfl⟩, ?_⟩, hpcr, hpcc⟩
        rw [hpcr]
        simpa using hrne.symm ∘ Eq.symm
      · intro r hrm p hp
        exact hsides r (List.mem_of_mem_filter hrm) p
          (List.mem_of_mem_filter (List.mem_of_mem_filter hp))
      · intro p1 h1 p2 h2
        exact huniq p1 (List.mem_of_mem_filter (List.mem_of_mem_filter h1)) p2
          (List.mem_of_mem_filter (List.mem_of_mem_filter h2))

theorem Inv_flipResolve (roomId : Nat) (room : Room) (gok : Bool) (db : DB) (h : Inv db) :
    Inv (flipResolve roomId room gok db).1 := by
  rcases flipResolve_cases roomId room gok db with ⟨e, heq⟩ | ⟨cs, wp, hcs, hfind, heq⟩
  · rw [heq]
    exact h
  · rw [heq]
    exact Inv_updateRooms _ _ _ (fun r => rfl) (fun r => rfl)
      (Inv_of_parts h rfl rfl (Nat.le_succ _))

theorem Inv_flipCoin (db : DB) (roomId : Nat) (gok : Bool) (h : Inv db) :
    Inv (flipCoin roomId gok db).1 := by
  unfold flipCoin
  split
  · exact h
  · split
    · exact Inv_flipResolve _ _ _ _ (Inv_updateRooms _ _ _ (fun r => rfl) (fun r => rfl) h)
    · exact Inv_flipResolve _ _ _ _ h

theorem eq_of_mem_nodup_map_id {l : List Room} (h : (l.map Room.id).Nodup) {a b : Room}
    (ha : a ∈ l) (hb : b ∈ l) (hid : a.id = b.id) : a = b := by
  induction l with
  | nil => cases ha
  | cons x l ih =>
    simp only [List.map_cons, List.nodup_cons] at h
    rcases List.mem_cons.1 ha with rfl | ha' <;> rcases List.mem_cons.1 hb with rfl | hb'
    · rfl
    · exact absurd (hid ▸ List.mem_map_of_mem Room.id hb') h.1
    · exact absurd (show b.id ∈ List.map Room.id l from hid ▸ List.mem_map_of_mem Room.id ha')
        h.1
    · exact ih h.2 ha' hb'

/-- Appending a fresh non-creator joiner on the opposite side to a room with
at most one player preserves the invariant. -/
theorem Inv_insert_joiner (db : DB) (room : Room) (s : CoinSide) (sid nm : String)
    (hroom : room ∈ db.rooms)
    (hside : s = oppositeSide room.creator_side)
    (hlen : (playersOf db room.id).length ≤ 1)
    (h : Inv db) :
    Inv { db with
          players := db.players ++
            [{ id := db.nextId, room_id := room.id, socket_id := sid, name := nm, side := s,
               is_creator := false, stake_amount := FIXED_STAKE, has_paid := true }],
          nextId := db.nextId + 1 } := by
  obtain ⟨hrn, hpn, hrf, hpf, hcount, hcreator, hsides, huniq⟩ := h
  have hrfresh : room.id < db.nextId := hrf room hroom
  refine ⟨hrn, ?_, ?_, ?_, ?_, ?_, ?_, ?_⟩
  · rw [List.map_append]
    refine List.Nodup.append hpn (by simp) ?_
    intro a ha hb
    obtain ⟨p, hp, rfl⟩ := List.mem_map.1 ha
    simp only [List.map_cons, List.map_nil, List.mem_singleton] at hb
    exact absurd hb (Nat.ne_of_lt (hpf p hp).1)
  · intro r hrm
    exact Nat.lt_succ_of_lt (hrf r hrm)
  · intro p hp
    rcases List.mem_append.1 hp with hp' | hp'
    · exact ⟨Nat.lt_succ_of_lt (hpf p hp').1, Nat.lt_succ_of_lt (hpf p hp').2⟩
    · simp only [List.mem_singleton] at hp'
      subst hp'
      exact ⟨Nat.lt_succ_self _, Nat.lt_succ_of_lt hrfresh⟩
  · intro r hrm
    rw [playersOf_eq]
    show ((db.players ++ _).filter _).length ≤ 2
    rw [List.filter_append]
    by_cases hid : room.id = r.id
    · rw [List.length_append]
      have h2 : (List.filter (fun p => p.room_id == r.id)
          [({ id := db.nextId, room_id := room.id, socket_id := sid, name := nm, side := s,
              is_creator := false, stake_amount := FIXED_STAKE, has_paid := true } : Player)]).length ≤ 1 := by
        simp [List.filter]
        split <;> simp
      have h1 : (db.players.filter (fun p => p.room_id == r.id)).length ≤ 1 := by
        rw [← hid]
        exact hlen
      omega
    · have hdrop : (List.filter (fun p => p.room_id == r.id)
          [({ id := db.nextId, room_id := room.id, socket_id := sid, name := nm, side := s,
              is_creator := false, stake_amount := FIXED_STAKE, has_paid := true } : Player)]) = [] := by
        have hb : (room.id == r.id) = false := by simp [hid]
        simp [List.filter, hb]
      rw [hdrop, List.append_nil]
      exact hcount r hrm
  · intro r hrm
    obtain ⟨pc, hpc, hpcr, hpcc⟩ := hcreator r hrm
    exact ⟨pc, List.mem_append_left _ hpc, hpcr, hpcc⟩
  · intro r hrm p hp hpr
    rcases List.mem_append.1 hp with hp' | hp'
    · exact hsides r hrm p hp' hpr
    · simp only [List.mem_singleton] at hp'
      subst hp'
      simp only at hpr ⊢
      have : r = room := eq_of_mem_nodup_map_id hrn hrm hroom (by rw [← hpr])
      subst this
      simp [hside]
  · intro p1 h1 p2 h2 hrid hc1 hc2
    rcases List.mem_append.1 h1 with h1' | h1'
    · rcases List.mem_append.1 h2 with h2' | h2'
      · exact huniq p1 h1' p2 h2' hrid hc1 hc2
      · simp only [List.mem_singleton] at h2'
        subst h2'
        cases hc2
    · simp only [List.mem_singleton] at h1'
      subst h1'
      cases hc1

theorem Inv_joinRoom (db : DB) (code : String) (name : Option String) (sid cs : String)
    (iok uok : Bool) (h : Inv db) : Inv (joinRoom code name sid cs iok uok db).1 := by
  unfold joinRoom
  split
  · exact h
  next room heq =>
    split
    · exact h
    next hlen =>
      have hfilter := selectSingle_eq_some heq
      have hroom : room ∈ db.rooms := by
        have : room ∈ db.rooms.filter (fun r => r.code == code && r.status == RoomStatus.waiting) := by
          rw [hfilter]
          exact List.mem_singleton.2 rfl
        exact List.mem_of_mem_filter this
      have hlen1 : (playersOf db room.id).length ≤ 1 := by omega
      cases hcrs : room.creator_side with
      | heads =>
        cases iok with
        | false => exact h
        | true =>
          have hj := Inv_insert_joiner db room CoinSide.tails sid (defaultName name sid)
            hroom (by rw [hcrs]; rfl) hlen1 h
          cases uok with
          | false => exact hj
          | true => exact Inv_updateRooms _ _ _ (fun r => rfl) (fun r => rfl) hj
      | tails =>
        cases iok with
        | false => exact h
        | true =>
          have hj := Inv_insert_joiner db room CoinSide.heads sid (defaultName name sid)
            hroom (by rw [hcrs]; rfl) hlen1 h
          cases uok with
          | false => exact hj
          | true => exact Inv_updateRooms _ _ _ (fun r => rfl) (fun r => rfl) hj

/-- Inserting a fresh room together with its fresh creator player preserves
the invariant. -/
theorem Inv_create_insert (db : DB) (room : Room) (creator : Player)
    (hrid : room.id = db.nextId)
    (hcid : creator.id = db.nextId + 1)
    (hcrm : creator.room_id = db.nextId)
    (hcis : creator.is_creator = true)
    (hcside : creator.side = room.creator_side)
    (h : Inv db) :
    Inv { db with rooms := db.rooms ++ [room], players := db.players ++ [creator],
                  nextId := db.nextId + 2 } := by
  obtain ⟨hrn, hpn, hrf, hpf, hcount, hcreator, hsides, huniq⟩ := h
  have hplayers_nomatch : ∀ p ∈ db.players, (p.room_id == db.nextId) = false := by
    intro p hp
    simp [Nat.ne_of_lt (hpf p hp).2]
  refine ⟨?_, ?_, ?_, ?_, ?_, ?_, ?_, ?_⟩
  · rw [List.map_append]
    refine List.Nodup.append hrn (by simp) ?_
    intro a ha hb
    obtain ⟨r, hr, rfl⟩ := List.mem_map.1 ha
    simp only [List.map_cons, List.map_nil, List.mem_singleton, hrid] at hb
    exact absurd hb (Nat.ne_of_lt (hrf r hr))
  · rw [List.map_append]
    refine List.Nodup.append hpn (by simp) ?_
    intro a ha hb
    obtain ⟨p, hp, rfl⟩ := List.mem_map.1 ha
    simp only [List.map_cons, List.map_nil, List.mem_singleton, hcid] at hb
    exact absurd hb (Nat.ne_of_lt (Nat.lt_succ_of_lt (hpf p hp).1))
  · intro r hrm
    show r.id < db.nextId + 2
    rcases List.mem_append.1 hrm with hr' | hr'
    · have := hrf r hr'
      omega
    · have hreq : r = room := by simpa using hr'
      rw [hreq, hrid]
      omega
  · intro p hp
    show p.id < db.nextId + 2 ∧ p.room_id < db.nextId + 2
    rcases List.mem_append.1 hp with hp' | hp'
    · have := hpf p hp'
      omega
    · have hpe : p = creator := by simpa using hp'
      rw [hpe, hcid, hcrm]
      omega
  · intro r hrm
    rw [playersOf_eq]
    show ((db.players ++ [creator]).filter _).length ≤ 2
    rw [List.filter_append]
    rcases List.mem_append.1 hrm with hr' | hr'
    · have hne : (creator.room_id == r.id) = false := by
        have h1 := hrf r hr'
        rw [hcrm]
        simp only [beq_eq_false_iff_ne, ne_eq]
        omega
      have hsing : List.filter (fun p => p.room_id == r.id) [creator] = [] := by
        simp [List.filter, hne]
      rw [hsing, List.append_nil]
      exact hcount r hr'
    · have hreq : r = room := by simpa using hr'
      have hold : db.players.filter (fun p => p.room_id == r.id) = [] := by
        rw [List.filter_eq_nil_iff]
        intro p hp
        rw [hreq, hrid]
        simp [Nat.ne_of_lt (hpf p hp).2]
      rw [hold, List.nil_append]
      exact Nat.le_trans (List.length_filter_le _ _) (by simp)
  · intro r hrm
    rcases List.mem_append.1 hrm with hr' | hr'
    · obtain ⟨pc, hpc, hpcr, hpcc⟩ := hcreator r hr'
      exact ⟨pc, List.mem_append_left _ hpc, hpcr, hpcc⟩
    · simp only [List.mem_singleton] at hr'
      subst hr'
      exact ⟨creator, List.mem_append_right _ (List.mem_singleton.2 rfl),
        by rw [hcrm, hrid], hcis⟩
  · intro r hrm p hp hpr
    rcases List.mem_append.1 hrm with hr' | hr' <;>
      rcases List.mem_append.1 hp with hp' | hp'
    · exact hsides r hr' p hp' hpr
    · simp only [List.mem_singleton] at hp'
      subst hp'
      rw [hcrm] at hpr
      exact absurd hpr.symm (Nat.ne_of_lt (hrf r hr'))
    · simp only [List.mem_singleton] at hr'
      subst hr'
      rw [hrid] at hpr
      exact absurd hpr (Nat.ne_of_lt (hpf p hp').2)
    · simp only [List.mem_singleton] at hr' hp'
      subst hr'
      subst hp'
      rw [hcis, hcside]
      simp
  · intro p1 h1 p2 h2 hrid12 hc1 hc2
    rcases List.mem_append.1 h1 with h1' | h1' <;>
      rcases List.mem_append.1 h2 with h2' | h2'
    · exact huniq p1 h1' p2 h2' hrid12 hc1 hc2
    · simp only [List.mem_singleton] at h2'
      subst h2'
      rw [hcrm] at hrid12
      exact absurd hrid12 (Nat.ne_of_lt (hpf p1 h1').2)
    · simp only [List.mem_singleton] at h1'
      subst h1'
      rw [hcrm] at hrid12
      exact absurd hrid12.symm (Nat.ne_of_lt (hpf p2 h2').2)
    · simp only [List.mem_singleton] at h1' h2'
      subst h1'
      subst h2'
      rfl

theorem Inv_createRoom (db : DB) (side : CoinSide) (name : Option String) (sid : String)
    (env : CreateRoomEnv) (h : Inv db) : Inv (createRoom side name sid env db).1 := by
  obtain ⟨hrn, hpn, hrf, hpf, hcount, hcreator, hsides, huniq⟩ := h
  have h' : Inv db := ⟨hrn, hpn, hrf, hpf, hcount, hcreator, hsides, huniq⟩
  unfold createRoom
  split
  · exact h'
  next code hcode =>
    cases henv : env.roomInsertOk with
    | false => exact h'
    | true =>
      cases henv2 : env.playerInsertOk with
      | true =>
        exact Inv_create_insert db _ _ rfl rfl rfl rfl rfl h'
      | false =>
        refine Inv_of_parts h' ?_ ?_ (by show db.nextId ≤ db.nextId + 1; omega)
        · show (db.rooms ++ _).filter _ = db.rooms
          rw [List.filter_append]
          have h1 : db.rooms.filter (fun r => !(r.id == db.nextId)) = db.rooms := by
            rw [List.filter_eq_self]
            intro r hr
            simp [Nat.ne_of_lt (hrf r hr)]
          have h2 : List.filter (fun r => !(r.id == db.nextId))
              [({ id := db.nextId, code := code, creator_side := side,
                  stake_amount := FIXED_STAKE, total_pot := TOTAL_POT,
                  status := RoomStatus.waiting, server_seed := env.serverSeed,
                  client_seed := none, nonce := 0 } : Room)] = [] := by
            simp [List.filter]
          rw [h1, h2, List.append_nil]
        · show db.players.filter _ = db.players
          rw [List.filter_eq_self]
          intro p hp
          simp [Nat.ne_of_lt (hpf p hp).2]

/-- **C7**: from any store satisfying the inductive invariant, each of the
four state-machine operations — `createRoom`, `joinRoom`, `flipCoin`,
`removePlayer` — yields a store that again satisfies it, and in particular
every reachable store keeps at most two players per room with the two players
of a full room on literally opposite, never equal, sides. -/
theorem stateMachine_preserves_player_invariants (db : DB) (h : Inv db) :
    RoomPlayersOk db ∧
    (∀ side name sid env, Inv (createRoom side name sid env db).1 ∧
      RoomPlayersOk (createRoom side name sid env db).1) ∧
    (∀ code name sid cs iok uok, Inv (joinRoom code name sid cs iok uok db).1 ∧
      RoomPlayersOk (joinRoom code name sid cs iok uok db).1) ∧
    (∀ rid gok, Inv (flipCoin rid gok db).1 ∧ RoomPlayersOk (flipCoin rid gok db).1) ∧
    (∀ sid, Inv (removePlayer sid db) ∧ RoomPlayersOk (removePlayer sid db)) :=
  ⟨h.roomPlayersOk,
   fun side name sid env =>
     ⟨Inv_createRoom db side name sid env h, (Inv_createRoom db side name sid env h).roomPlayersOk⟩,
   fun code name sid cs iok uok =>
     ⟨Inv_joinRoom db code name sid cs iok uok h,
      (Inv_joinRoom db code name sid cs iok uok h).roomPlayersOk⟩,
   fun rid gok => ⟨Inv_flipCoin db rid gok h, (Inv_flipCoin db rid gok h).roomPlayersOk⟩,
   fun sid => ⟨Inv_removePlayer db sid h, (Inv_removePlayer db sid h).roomPlayersOk⟩⟩

/-- **C7 witness**: the concrete two-player store satisfies the invariant, and
the flip and disconnect operations applied to it preserve it. -/
theorem stateMachine_preserves_player_invariants_witness :
    RoomPlayersOk sampleDB ∧
    (Inv (flipCoin 0 true sampleDB).1 ∧ RoomPlayersOk (flipCoin 0 true sampleDB).1) ∧
    (Inv (removePlayer "s1" sampleDB) ∧ RoomPlayersOk (removePlayer "s1" sampleDB)) ∧
    (Inv (joinRoom "Z" none "s9" "c" true true sampleDB).1 ∧
      RoomPlayersOk (joinRoom "Z" none "s9" "c" true true sampleDB).1) :=
  ⟨(stateMachine_preserves_player_invariants sampleDB (by unfold Inv; decide)).1,
   (stateMachine_preserves_player_invariants sampleDB (by unfold Inv; decide)).2.2.2.1 0 true,
   (stateMachine_preserves_player_invariants sampleDB (by unfold Inv; decide)).2.2.2.2 "s1",
   (stateMachine_preserves_player_invariants sampleDB (by unfold Inv; decide)).2.2.1 "Z" none "s9" "c"
     true true⟩

end Coinflip
